import Mathlib

/-!
# Verified model of the plagiarism-detector core

Shallow embedding of the fingerprinting and similarity-scoring pipeline:

* `TextPreprocessor` — normalization, tokenization, k-gram / word-n-gram
  shingling, stop-word removal (`preprocessing.ts`);
* `HashingEngine` — FNV-1a hashing, fingerprint sets, winnowing, MinHash
  (`hashing.ts`);
* `SimilarityEngine` — set operations and Jaccard / cosine / overlap / Dice
  coefficients, classification (`similarity.ts`);
* `PlagiarismDetector` — document fingerprinting and pairwise / all-pairs
  comparison (`plagiarism-detector.ts`).

Modeling conventions.  A JavaScript string is a sequence of UTF-16 code
units, modeled as `Str := List ℕ`; `charCodeAt` is list indexing.
`toLowerCase` is modeled on the Basic Latin range (the only range that
interacts with the `\w` character class used by the normalizer).  The
`\w` and `\s` regular-expression character classes are modeled exactly
(`\s` with the full ECMAScript whitespace set).  JavaScript numbers are
modeled exactly: similarity ratios as `ℚ` (and `ℝ` where a square root
occurs), 32-bit integer wraparound (`Math.imul`, `>>> 0`, `^`) as
arithmetic modulo `2 ^ 32` on `ℕ`, which agrees with the two's-complement
bit patterns used by the source.  A thrown exception is an
`Except.error`.
-/

/-- A JavaScript string: its list of UTF-16 code units. -/
abbrev Str := List ℕ

namespace TextPreprocessor

/-- The ECMAScript `\w` character class: `[A-Za-z0-9_]`. -/
def isWordChar (c : ℕ) : Bool :=
  (48 ≤ c && c ≤ 57) || (65 ≤ c && c ≤ 90) || (97 ≤ c && c ≤ 122) || c == 95

/-- The ECMAScript `\s` character class (also the `trim` whitespace set):
tab, LF, VT, FF, CR, space, NBSP, Ogham space, the U+2000–U+200A range,
LS, PS, NNBSP, MMSP, ideographic space, BOM. -/
def isSpaceChar (c : ℕ) : Bool :=
  c == 9 || c == 10 || c == 11 || c == 12 || c == 13 || c == 32 ||
  c == 160 || c == 5760 || (8192 ≤ c && c ≤ 8202) || c == 8232 ||
  c == 8233 || c == 8239 || c == 8287 || c == 12288 || c == 65279

/-- `String.prototype.toLowerCase`, one code unit (Basic Latin range). -/
def jsToLower (c : ℕ) : ℕ :=
  if 65 ≤ c ∧ c ≤ 90 then c + 32 else c

/-- `.replace(/[^\w\s]/g, ' ')`, one code unit: every character outside
`\w ∪ \s` becomes a space. -/
def replacePunct (c : ℕ) : ℕ :=
  if isWordChar c || isSpaceChar c then c else 32

/-- `.replace(/\s+/g, ' ')`: each maximal run of `\s` characters becomes a
single space.  The flag records whether the previous character belonged to
a whitespace run that has already emitted its space. -/
def collapseAux : Bool → Str → Str
  | _, [] => []
  | prevSpace, c :: rest =>
    if isSpaceChar c then
      if prevSpace then collapseAux true rest
      else 32 :: collapseAux true rest
    else c :: collapseAux false rest

/-- `.replace(/\s+/g, ' ')` on a whole string. -/
def collapseWS (s : Str) : Str := collapseAux false s

/-- `String.prototype.trim`: strip leading and trailing whitespace. -/
def trim (s : Str) : Str :=
  (((s.dropWhile (fun c => isSpaceChar c)).reverse.dropWhile
    (fun c => isSpaceChar c)).reverse)

/-- `normalize`: lowercase, replace punctuation by spaces, collapse
whitespace runs, trim. -/
def normalize (text : Str) : Str :=
  trim (collapseWS ((text.map jsToLower).map replacePunct))

/-- `"".split(' ')` splitting on the single-space character (keeps empty
fields, as in JavaScript). -/
def splitAux : Str → Str → List Str
  | acc, [] => [acc.reverse]
  | acc, c :: rest =>
    if c = 32 then acc.reverse :: splitAux [] rest
    else splitAux (c :: acc) rest

/-- `tokenize`: normalize, split on the space delimiter, drop empty words. -/
def tokenize (text : Str) : List Str :=
  (splitAux [] (normalize text)).filter (fun w => w.length > 0)

/-- `generateKGrams(text, k)`: all length-`k` windows of the normalized
text; `max (0, length - k + 1)` of them (`ℕ`-subtraction `length + 1 - k`
matches the JavaScript loop bound `i <= length - k`). -/
def generateKGrams (text : Str) (k : ℕ) : List Str :=
  (List.range ((normalize text).length + 1 - k)).map
    (fun i => ((normalize text).drop i).take k)

/-- `generateWordNGrams(text, n)`: all `n`-word windows of the token list,
re-joined with single spaces. -/
def generateWordNGrams (text : Str) (n : ℕ) : List Str :=
  (List.range ((tokenize text).length + 1 - n)).map
    (fun i => List.intercalate [32] (((tokenize text).drop i).take n))

/-- The hard-coded stop-word set (37 common English function words). -/
def stopWords : List Str :=
  [[116, 104, 101],
   [97],
   [97, 110],
   [97, 110, 100],
   [111, 114],
   [98, 117, 116],
   [105, 110],
   [111, 110],
   [97, 116],
   [116, 111],
   [102, 111, 114],
   [111, 102],
   [119, 105, 116, 104],
   [105, 115],
   [119, 97, 115],
   [97, 114, 101],
   [119, 101, 114, 101],
   [98, 101],
   [98, 101, 101, 110],
   [98, 101, 105, 110, 103],
   [104, 97, 118, 101],
   [104, 97, 115],
   [104, 97, 100],
   [100, 111],
   [100, 111, 101, 115],
   [100, 105, 100],
   [119, 105, 108, 108],
   [119, 111, 117, 108, 100],
   [99, 111, 117, 108, 100],
   [115, 104, 111, 117, 108, 100],
   [109, 97, 121],
   [109, 105, 103, 104, 116],
   [99, 97, 110],
   [116, 104, 105, 115],
   [116, 104, 97, 116],
   [116, 104, 101, 115, 101],
   [116, 104, 111, 115, 101]]

/-- `removeStopWords`: tokenize, filter out stop words, re-join with
single spaces. -/
def removeStopWords (text : Str) : Str :=
  List.intercalate [32] ((tokenize text).filter (fun w => w ∉ stopWords))

end TextPreprocessor

namespace HashingEngine

/-- One step of the FNV-1a loop: `hash ^= charCode; hash = Math.imul(hash,
0x01000193)`, on the unsigned-32-bit bit pattern. -/
def fnvStep (h c : ℕ) : ℕ :=
  (Nat.xor h c) * 0x01000193 % 4294967296

/-- `fnvHash(str)`: FNV-1a over the code units, starting from the offset
basis `0x811c9dc5`; the trailing `% 2^32` is the final `>>> 0`. -/
def fnvHash (s : Str) : ℕ :=
  (s.foldl fnvStep 0x811c9dc5) % 4294967296

/-- `generateFingerprints(kGrams)`: the set of hashes of all shingles. -/
def generateFingerprints (kGrams : List Str) : Finset ℕ :=
  (kGrams.map fnvHash).toFinset

/-- `Math.min(...window)` for a nonempty window (a window is nonempty
whenever `windowSize ≥ 1`; on `[]` JavaScript would give `Infinity`,
never reached by the callers modeled here). -/
def listMin : List ℕ → ℕ
  | [] => 0
  | h :: t => t.foldl min h

/-- The winnowing pass: the minimum of every window of `w` consecutive
hash values, windows starting at positions `0` through `length - w`. -/
def slidingMins (hashes : List ℕ) (w : ℕ) : List ℕ :=
  (List.range (hashes.length + 1 - w)).map
    (fun i => listMin ((hashes.drop i).take w))

/-- `generateWinnowingFingerprints(kGrams, windowSize)`: hash every
shingle in order, then collect each window's minimum into a set. -/
def generateWinnowingFingerprints (kGrams : List Str) (windowSize : ℕ) :
    Finset ℕ :=
  if kGrams = [] then ∅
  else (slidingMins (kGrams.map fnvHash) windowSize).toFinset

/-- `estimateSimilarityFromMinHash(sig1, sig2)`: throws on mismatched
lengths, otherwise the fraction of positions where the signatures agree. -/
def estimateSimilarityFromMinHash (sig1 sig2 : List ℕ) : Except String ℚ :=
  if sig1.length ≠ sig2.length then
    Except.error ("Signatures must have same length")
  else
    Except.ok
      ((((List.range sig1.length).countP
          (fun i => sig1.getD i 0 == sig2.getD i 0)) : ℚ) /
        (sig1.length : ℚ))

end HashingEngine

namespace SimilarityEngine

/-- `intersection(set1, set2)`: iterate the smaller set, keep elements
present in the larger. -/
def intersection (set1 set2 : Finset ℕ) : Finset ℕ :=
  if set1.card < set2.card then set1.filter (fun x => x ∈ set2)
  else set2.filter (fun x => x ∈ set1)

/-- `union(set1, set2)`. -/
def union (set1 set2 : Finset ℕ) : Finset ℕ := set1 ∪ set2

/-- `difference(set1, set2)`: elements of `set1` not in `set2`. -/
def difference (set1 set2 : Finset ℕ) : Finset ℕ :=
  set1.filter (fun x => x ∉ set2)

/-- `computeJaccardSimilarity`: both-empty → 1, otherwise
`|A ∩ B| / |A ∪ B|`. -/
def computeJaccardSimilarity (set1 set2 : Finset ℕ) : ℚ :=
  if set1.card = 0 ∧ set2.card = 0 then 1
  else ((intersection set1 set2).card : ℚ) / ((union set1 set2).card : ℚ)

/-- `computeOverlapCoefficient`: either-empty → 0, otherwise
`|A ∩ B| / min (|A|, |B|)`. -/
def computeOverlapCoefficient (set1 set2 : Finset ℕ) : ℚ :=
  if set1.card = 0 ∨ set2.card = 0 then 0
  else ((intersection set1 set2).card : ℚ) / ((min set1.card set2.card : ℕ) : ℚ)

/-- `computeCosineSimilarity`: either-empty → 0, otherwise
`|A ∩ B| / sqrt (|A| * |B|)`. -/
noncomputable def computeCosineSimilarity (set1 set2 : Finset ℕ) : ℝ :=
  if set1.card = 0 ∨ set2.card = 0 then 0
  else ((intersection set1 set2).card : ℝ) /
    Real.sqrt ((set1.card : ℝ) * (set2.card : ℝ))

/-- `computeDiceCoefficient`: both-empty → 1, otherwise
`2 |A ∩ B| / (|A| + |B|)`. -/
def computeDiceCoefficient (set1 set2 : Finset ℕ) : ℚ :=
  if set1.card = 0 ∧ set2.card = 0 then 1
  else (2 * (intersection set1 set2).card : ℚ) / ((set1.card + set2.card : ℕ) : ℚ)

/-- The similarity bundle returned by `computeAllSimilarities` (the fields
of the `SimilarityResult` interface, in source order). -/
structure SimilarityResult where
  jaccardSimilarity : ℚ
  cosineSimilarity : ℝ
  overlapCoefficient : ℚ
  intersectionSize : ℕ
  unionSize : ℕ
  set1Size : ℕ
  set2Size : ℕ

/-- `computeAllSimilarities(set1, set2)`. -/
noncomputable def computeAllSimilarities (set1 set2 : Finset ℕ) :
    SimilarityResult where
  jaccardSimilarity := computeJaccardSimilarity set1 set2
  cosineSimilarity := computeCosineSimilarity set1 set2
  overlapCoefficient := computeOverlapCoefficient set1 set2
  intersectionSize := (intersection set1 set2).card
  unionSize := (union set1 set2).card
  set1Size := set1.card
  set2Size := set2.card

/-- The numeric values carried by a similarity bundle, as real numbers
(used to state what the bundle does and does not contain). -/
noncomputable def bundleValues (s : SimilarityResult) : List ℝ :=
  [(s.jaccardSimilarity : ℝ), s.cosineSimilarity, (s.overlapCoefficient : ℝ),
   (s.intersectionSize : ℝ), (s.unionSize : ℝ), (s.set1Size : ℝ),
   (s.set2Size : ℝ)]

/-- The classification record returned by `classifySimilarity`. -/
structure Classification where
  level : String
  label : String
  color : String
deriving DecidableEq

/-- `classifySimilarity(similarity)`: five bands with inclusive lower
cutoffs, evaluated top-down. -/
def classifySimilarity (similarity : ℚ) : Classification :=
  if 0.8 ≤ similarity then
    { level := "very-high", label := "Very High Similarity",
      color := "text-red-600 dark:text-red-400" }
  else if 0.6 ≤ similarity then
    { level := "high", label := "High Similarity",
      color := "text-orange-600 dark:text-orange-400" }
  else if 0.4 ≤ similarity then
    { level := "medium", label := "Medium Similarity",
      color := "text-yellow-600 dark:text-yellow-400" }
  else if 0.2 ≤ similarity then
    { level := "low", label := "Low Similarity",
      color := "text-blue-600 dark:text-blue-400" }
  else
    { level := "none", label := "Minimal Similarity",
      color := "text-green-600 dark:text-green-400" }

/-- The index positions at which a shingle occurs in a shingle list (the
position lists stored in the `Map`s of `findCommonKGrams`). -/
def positionsOf (kg : Str) (l : List Str) : List ℕ :=
  (List.range l.length).filter (fun i => l.getD i [] = kg)

/-- The keys of a JavaScript `Map` built by pushing list elements in
order: the distinct elements in first-occurrence order. -/
def firstOccurrences : List Str → List Str
  | [] => []
  | x :: xs => x :: (firstOccurrences xs).filter (fun y => y ≠ x)

/-- `findCommonKGrams(kGrams1, kGrams2)`: for every shingle key of the
first map that is also a key of the second, one record with both position
lists, in the first map's key-insertion order. -/
def findCommonKGrams (kGrams1 kGrams2 : List Str) :
    List (Str × List ℕ × List ℕ) :=
  (firstOccurrences kGrams1).filterMap
    (fun kg =>
      if kg ∈ kGrams2 then some (kg, positionsOf kg kGrams1, positionsOf kg kGrams2)
      else none)

end SimilarityEngine

namespace PlagiarismDetector

open SimilarityEngine

/-- The `PlagiarismConfig` interface. -/
structure PlagiarismConfig where
  kGramSize : ℕ
  useWinnowing : Bool
  winnowingWindowSize : ℕ
  removeStopWords : Bool
  useWordNGrams : Bool
  wordNGramSize : ℕ

/-- The `DocumentFingerprint` interface. -/
structure DocumentFingerprint where
  documentId : Str
  documentName : Str
  content : Str
  kGrams : List Str
  fingerprints : Finset ℕ
  preprocessedText : Str

/-- The `ComparisonResult` interface (document identities, similarity
bundle, percentage, classification, verdict, common shingles). -/
structure ComparisonResult where
  doc1 : Str × Str
  doc2 : Str × Str
  similarity : SimilarityResult
  similarityPercentage : ℚ
  classification : Classification
  isPlagiarized : Bool
  commonKGrams : List (Str × List ℕ × List ℕ)

/-- `preprocessText`: normalize, then optionally remove stop words. -/
def preprocessText (config : PlagiarismConfig) (text : Str) : Str :=
  if config.removeStopWords then
    TextPreprocessor.removeStopWords (TextPreprocessor.normalize text)
  else TextPreprocessor.normalize text

/-- The detector's `generateKGrams` step: character k-grams or word
n-grams according to the configuration. -/
def generateKGrams (config : PlagiarismConfig) (text : Str) : List Str :=
  if config.useWordNGrams then
    TextPreprocessor.generateWordNGrams text config.wordNGramSize
  else TextPreprocessor.generateKGrams text config.kGramSize

/-- The detector's `generateFingerprints` step: winnowing or plain
hashing according to the configuration. -/
def generateFingerprints (config : PlagiarismConfig) (kGrams : List Str) :
    Finset ℕ :=
  if config.useWinnowing then
    HashingEngine.generateWinnowingFingerprints kGrams config.winnowingWindowSize
  else HashingEngine.generateFingerprints kGrams

/-- `createDocumentFingerprint`: the full pipeline text → preprocessing →
shingles → hashing → fingerprint set. -/
def createDocumentFingerprint (config : PlagiarismConfig)
    (documentId documentName content : Str) : DocumentFingerprint :=
  { documentId := documentId
    documentName := documentName
    content := content
    kGrams := generateKGrams config (preprocessText config content)
    fingerprints :=
      generateFingerprints config (generateKGrams config (preprocessText config content))
    preprocessedText := preprocessText config content }

/-- `compareDocuments(doc1, doc2, plagiarismThreshold)`. -/
noncomputable def compareDocuments (doc1 doc2 : DocumentFingerprint)
    (plagiarismThreshold : ℚ) : ComparisonResult where
  doc1 := (doc1.documentId, doc1.documentName)
  doc2 := (doc2.documentId, doc2.documentName)
  similarity := computeAllSimilarities doc1.fingerprints doc2.fingerprints
  similarityPercentage :=
    (computeAllSimilarities doc1.fingerprints doc2.fingerprints).jaccardSimilarity * 100
  classification :=
    classifySimilarity
      (computeAllSimilarities doc1.fingerprints doc2.fingerprints).jaccardSimilarity
  isPlagiarized :=
    decide (plagiarismThreshold ≤
      (computeAllSimilarities doc1.fingerprints doc2.fingerprints).jaccardSimilarity)
  commonKGrams := (findCommonKGrams doc1.kGrams doc2.kGrams).take 100

/-- The pairs visited by the nested loops of `compareAll`: `(i, j)` with
`i < j`, in loop order. -/
def allPairs : List α → List (α × α)
  | [] => []
  | x :: xs => (xs.map (fun y => (x, y))) ++ allPairs xs

/-- The comparator used by `compareAll`'s sort: descending similarity
percentage. -/
noncomputable def byPercentageDesc (a b : ComparisonResult) : Bool :=
  decide (b.similarityPercentage ≤ a.similarityPercentage)

/-- `compareAll(documents, plagiarismThreshold)`: compare every unordered
pair `i < j`, then sort descending by similarity percentage. -/
noncomputable def compareAll (documents : List DocumentFingerprint)
    (plagiarismThreshold : ℚ) : List ComparisonResult :=
  ((allPairs documents).map
    (fun p => compareDocuments p.1 p.2 plagiarismThreshold)).mergeSort
    byPercentageDesc

end PlagiarismDetector

namespace HashingEngine

/-- Reference FNV-1a computation, following the specification's wording:
starting from the offset basis `0x811c9dc5`, for each character in order
XOR its char code into the running hash, then multiply by the prime
`0x01000193` modulo `2 ^ 32`; the final result is masked into
`[0, 2 ^ 32)`. -/
def fnvRefRun : ℕ → Str → ℕ
  | h, [] => h % 4294967296
  | h, c :: cs => fnvRefRun ((Nat.xor h c) * 0x01000193 % 4294967296) cs

/-- The reference FNV-1a hash of a string. -/
def fnvReference (s : Str) : ℕ := fnvRefRun 0x811c9dc5 s

/-- The number of positions at which two equal-length signatures agree,
stated over the zipped signatures. -/
def zipMatches (sig1 sig2 : List ℕ) : ℕ :=
  (sig1.zip sig2).countP (fun p => p.1 == p.2)

end HashingEngine

namespace TextPreprocessor

/-- Adjacent characters are never both spaces. -/
def noDoubleSpace (a b : ℕ) : Prop := ¬(a = 32 ∧ b = 32)

/-- Invariant characterizing the output of `normalize`: every character
is a lowercase word character or the single space `32`, no two adjacent
spaces, and no leading or trailing space. -/
def wellFormed (l : Str) : Prop :=
  (∀ c ∈ l, (isWordChar c = true ∧ ¬(65 ≤ c ∧ c ≤ 90)) ∨ c = 32) ∧
  List.Chain' noDoubleSpace l ∧
  (∀ c, l.head? = some c → c ≠ 32) ∧
  (∀ c, l.getLast? = some c → c ≠ 32)

end TextPreprocessor

namespace PlagiarismDetector

/-- A detector configuration with winnowing enabled: `k = 5`, window
size `4`, no stop-word removal, character k-grams. -/
def exConfigW : PlagiarismConfig :=
  { kGramSize := 5, useWinnowing := true, winnowingWindowSize := 4,
    removeStopWords := false, useWordNGrams := false, wordNGramSize := 3 }

/-- A document with content `"abcde"` fingerprinted under `exConfigW`. -/
def exDocA : DocumentFingerprint :=
  createDocumentFingerprint exConfigW [49] [97] [97, 98, 99, 100, 101]

/-- A document with content `"vwxyz"` fingerprinted under `exConfigW`. -/
def exDocB : DocumentFingerprint :=
  createDocumentFingerprint exConfigW [50] [98] [118, 119, 120, 121, 122]

/-- A document fingerprint whose fingerprint set is `{1, 2, 3, 4}`. -/
def exDocC : DocumentFingerprint :=
  { documentId := [51], documentName := [99], content := [],
    kGrams := [], fingerprints := {1, 2, 3, 4}, preprocessedText := [] }

/-- A document fingerprint whose fingerprint set is `{1}`. -/
def exDocD : DocumentFingerprint :=
  { documentId := [52], documentName := [100], content := [],
    kGrams := [], fingerprints := {1}, preprocessedText := [] }

end PlagiarismDetector

open TextPreprocessor HashingEngine SimilarityEngine PlagiarismDetector

/-- The source's smaller-set-first `intersection` computes `A ∩ B`. -/
theorem intersection_eq_inter (A B : Finset ℕ) : intersection A B = A ∩ B := by
  unfold intersection
  split
  · ext x
    simp [Finset.mem_filter, Finset.mem_inter]
  · ext x
    simp only [Finset.mem_filter, Finset.mem_inter]
    exact and_comm

/-- Claim C5: for every text `t` and every `k ≥ 1`, `generateKGrams t k`
has exactly `max (0, len (normalize t) - k + 1)` elements; a normalized
text shorter than `k` yields the empty sequence, not an error. -/
theorem generateKGrams_count (t : Str) (k : ℕ) (_hk : 1 ≤ k) :
    ((TextPreprocessor.generateKGrams t k).length : ℤ) =
      max 0 (((TextPreprocessor.normalize t).length : ℤ) - k + 1) := by
  simp only [TextPreprocessor.generateKGrams, List.length_map, List.length_range]
  omega

/-- Witness for C5 at the text `"Hello, World!"` and `k = 5`. -/
theorem generateKGrams_count_witness :
    1 ≤ 5 ∧
    ((TextPreprocessor.generateKGrams
        [72, 101, 108, 108, 111, 44, 32, 87, 111, 114, 108, 100, 33] 5).length : ℤ) =
      max 0 (((TextPreprocessor.normalize
        [72, 101, 108, 108, 111, 44, 32, 87, 111, 114, 108, 100, 33]).length : ℤ) - 5 + 1) :=
  ⟨by norm_num,
   generateKGrams_count [72, 101, 108, 108, 111, 44, 32, 87, 111, 114, 108, 100, 33] 5
     (by norm_num)⟩

/-- The reference recursion equals the source's fold. -/
theorem fnvRefRun_eq_foldl (s : Str) :
    ∀ h : ℕ, fnvRefRun h s = (s.foldl fnvStep h) % 4294967296 := by
  induction s with
  | nil => intro h; rfl
  | cons c cs ih => intro h; exact ih (fnvStep h c)

/-- Claim C6: `fnvHash` is deterministic and equals the FNV-1a reference
computation (offset basis `0x811c9dc5`, per-character XOR then multiply by
`0x01000193` modulo `2 ^ 32`, result in `[0, 2 ^ 32)`). -/
theorem fnvHash_matches_reference (s : Str) :
    fnvHash s = fnvReference s ∧ fnvHash s < 4294967296 ∧
    (∀ t, s = t → fnvHash s = fnvHash t) := by
  refine ⟨(fnvRefRun_eq_foldl s 0x811c9dc5).symm, ?_, ?_⟩
  · exact Nat.mod_lt _ (by norm_num)
  · intro t h
    rw [h]

/-- Witness for C6 at the string `"hi"`. -/
theorem fnvHash_matches_reference_witness :
    fnvHash [104, 105] = fnvHash [104, 105] :=
  (fnvHash_matches_reference [104, 105]).2.2 [104, 105] rfl

/-- Index-wise agreement counting equals zip-wise counting for
equal-length signatures. -/
theorem countP_range_eq_zipMatches (sig1 : List ℕ) :
    ∀ sig2 : List ℕ, sig1.length = sig2.length →
      (List.range sig1.length).countP (fun i => sig1.getD i 0 == sig2.getD i 0) =
        zipMatches sig1 sig2 := by
  induction sig1 with
  | nil =>
    intro sig2 h
    simp [zipMatches]
  | cons a t1 ih =>
    intro sig2 h
    match sig2 with
    | [] => simp at h
    | b :: t2 =>
      simp only [List.length_cons, Nat.add_right_cancel_iff] at h
      simp only [List.length_cons, List.range_succ_eq_map, List.countP_cons,
        List.countP_map, zipMatches, List.zip_cons_cons]
      have hrw :
          (List.range t1.length).countP
            ((fun i => (a :: t1).getD i 0 == (b :: t2).getD i 0) ∘ (· + 1)) =
          (List.range t1.length).countP (fun i => t1.getD i 0 == t2.getD i 0) := by
        apply List.countP_congr
        intro i _
        rfl
      rw [hrw, ih t2 h]
      simp [zipMatches, List.countP_cons]

/-- Claim C9: `estimateSimilarityFromMinHash` fails exactly when the two
signatures have different lengths; on equal lengths it returns the number
of agreeing positions divided by the common length. -/
theorem estimateSimilarity_length_check (sig1 sig2 : List ℕ) :
    ((estimateSimilarityFromMinHash sig1 sig2).isOk = false ↔
      sig1.length ≠ sig2.length) ∧
    (sig1.length = sig2.length →
      estimateSimilarityFromMinHash sig1 sig2 =
        Except.ok ((zipMatches sig1 sig2 : ℚ) / (sig1.length : ℚ))) := by
  constructor
  · unfold estimateSimilarityFromMinHash
    split
    · simp [Except.isOk, Except.toBool]
      assumption
    · simp [Except.isOk, Except.toBool]
      omega
  · intro h
    unfold estimateSimilarityFromMinHash
    rw [if_neg (by omega)]
    rw [countP_range_eq_zipMatches sig1 sig2 h]

/-- Witness for C9 at the signatures `[1, 2, 3]` and `[1, 5, 3]`. -/
theorem estimateSimilarity_length_check_witness :
    ([1, 2, 3] : List ℕ).length = ([1, 5, 3] : List ℕ).length ∧
    estimateSimilarityFromMinHash [1, 2, 3] [1, 5, 3] =
      Except.ok ((zipMatches [1, 2, 3] [1, 5, 3] : ℚ) /
        (([1, 2, 3] : List ℕ).length : ℚ)) :=
  ⟨rfl, (estimateSimilarity_length_check [1, 2, 3] [1, 5, 3]).2 rfl⟩

/-- Claim C7: all four similarity coefficients are symmetric, even though
`intersection` iterates whichever input set is smaller. -/
theorem similarity_coefficients_symmetric (A B : Finset ℕ) :
    computeJaccardSimilarity A B = computeJaccardSimilarity B A ∧
    computeCosineSimilarity A B = computeCosineSimilarity B A ∧
    computeOverlapCoefficient A B = computeOverlapCoefficient B A ∧
    computeDiceCoefficient A B = computeDiceCoefficient B A := by
  refine ⟨?_, ?_, ?_, ?_⟩
  · by_cases h1 : A.card = 0 <;> by_cases h2 : B.card = 0 <;>
      simp [computeJaccardSimilarity, SimilarityEngine.union, h1, h2,
        intersection_eq_inter, Finset.inter_comm A B, Finset.union_comm A B]
  · by_cases h1 : A.card = 0 <;> by_cases h2 : B.card = 0 <;>
      simp [computeCosineSimilarity, h1, h2, intersection_eq_inter,
        Finset.inter_comm A B, mul_comm (A.card : ℝ) (B.card : ℝ)]
  · by_cases h1 : A.card = 0 <;> by_cases h2 : B.card = 0 <;>
      simp [computeOverlapCoefficient, h1, h2, intersection_eq_inter,
        Finset.inter_comm A B, Nat.min_comm A.card B.card]
  · by_cases h1 : A.card = 0 <;> by_cases h2 : B.card = 0 <;>
      simp [computeDiceCoefficient, h1, h2, intersection_eq_inter,
        Finset.inter_comm A B, Nat.add_comm A.card B.card, and_comm]

/-- Claim C3: Jaccard is `|A ∩ B| / |A ∪ B|` with `jaccard (∅, ∅) = 1`,
`dice (∅, ∅) = 1`, overlap and cosine are `0` whenever either set is
empty, and no empty-set comparison divides by zero (the Jaccard
denominator is nonzero whenever the special case is not taken). -/
theorem empty_set_similarity_conventions (A B : Finset ℕ) :
    computeJaccardSimilarity A B =
      (if A = ∅ ∧ B = ∅ then 1 else ((A ∩ B).card : ℚ) / ((A ∪ B).card : ℚ)) ∧
    computeJaccardSimilarity ∅ ∅ = 1 ∧
    computeDiceCoefficient ∅ ∅ = 1 ∧
    ((A = ∅ ∨ B = ∅) → computeOverlapCoefficient A B = 0) ∧
    ((A = ∅ ∨ B = ∅) → computeCosineSimilarity A B = 0) ∧
    (¬(A = ∅ ∧ B = ∅) → ((A ∪ B).card : ℚ) ≠ 0) := by
  refine ⟨?_, by simp [computeJaccardSimilarity], by simp [computeDiceCoefficient],
    ?_, ?_, ?_⟩
  · simp only [computeJaccardSimilarity, SimilarityEngine.union,
      intersection_eq_inter, Finset.card_eq_zero]
  · intro h
    rcases h with h | h <;>
      simp [computeOverlapCoefficient, h]
  · intro h
    rcases h with h | h <;>
      simp [computeCosineSimilarity, h]
  · intro h
    have : (A ∪ B).Nonempty := by
      rcases Finset.eq_empty_or_nonempty A with hA | hA
      · rcases Finset.eq_empty_or_nonempty B with hB | hB
        · exact absurd ⟨hA, hB⟩ h
        · exact hB.mono Finset.subset_union_right
      · exact hA.mono Finset.subset_union_left
    have hcard : (A ∪ B).card ≠ 0 := Finset.card_ne_zero.mpr this
    exact_mod_cast hcard

/-- Witness for C3 at `A = ∅`, `B = {1}`. -/
theorem empty_set_similarity_conventions_witness :
    computeOverlapCoefficient ∅ {1} = 0 ∧
    computeCosineSimilarity ∅ {1} = 0 ∧
    (((∅ ∪ {1} : Finset ℕ)).card : ℚ) ≠ 0 :=
  ⟨(empty_set_similarity_conventions ∅ {1}).2.2.2.1 (Or.inl rfl),
   (empty_set_similarity_conventions ∅ {1}).2.2.2.2.1 (Or.inl rfl),
   (empty_set_similarity_conventions ∅ {1}).2.2.2.2.2 (by simp)⟩

/-- Claim C1 (amended): the similarity bundle inside the
`ComparisonResult` returned by `compareDocuments` contains the Jaccard,
cosine and overlap coefficients together with the intersection size, the
union size and each set's size — but not the Dice coefficient. -/
theorem comparisonResult_bundle_contents (d1 d2 : DocumentFingerprint) (t : ℚ) :
    (compareDocuments d1 d2 t).similarity.jaccardSimilarity =
      computeJaccardSimilarity d1.fingerprints d2.fingerprints ∧
    (compareDocuments d1 d2 t).similarity.cosineSimilarity =
      computeCosineSimilarity d1.fingerprints d2.fingerprints ∧
    (compareDocuments d1 d2 t).similarity.overlapCoefficient =
      computeOverlapCoefficient d1.fingerprints d2.fingerprints ∧
    (compareDocuments d1 d2 t).similarity.intersectionSize =
      (d1.fingerprints ∩ d2.fingerprints).card ∧
    (compareDocuments d1 d2 t).similarity.unionSize =
      (d1.fingerprints ∪ d2.fingerprints).card ∧
    (compareDocuments d1 d2 t).similarity.set1Size = d1.fingerprints.card ∧
    (compareDocuments d1 d2 t).similarity.set2Size = d2.fingerprints.card := by
  refine ⟨rfl, rfl, rfl, ?_, rfl, rfl, rfl⟩
  simp [compareDocuments, computeAllSimilarities, intersection_eq_inter]

/-- Counterexample for C1 as stated: for the fingerprint sets
`{1, 2, 3, 4}` and `{1}`, the Dice coefficient (`2/5`) is not among the
values carried by the similarity bundle that `compareDocuments` returns
(which are `1/4`, `1/2`, `1`, `1`, `4`, `4`, `1`): the bundle does not
contain the fourth coefficient. -/
theorem dice_not_in_bundle :
    ¬ (((computeDiceCoefficient exDocC.fingerprints exDocD.fingerprints : ℚ) : ℝ) ∈
        bundleValues (compareDocuments exDocC exDocD (1/2)).similarity) := by
  have hinter : (intersection exDocC.fingerprints exDocD.fingerprints).card = 1 := by
    decide
  have hunion :
      ((SimilarityEngine.union exDocC.fingerprints exDocD.fingerprints)).card = 4 := by
    decide
  have hc1 : exDocC.fingerprints.card = 4 := by decide
  have hc2 : exDocD.fingerprints.card = 1 := by decide
  have hdice : computeDiceCoefficient exDocC.fingerprints exDocD.fingerprints = 2/5 := by
    unfold computeDiceCoefficient
    rw [if_neg (by simp only [hc1, hc2]; decide), hinter, hc1, hc2]
    norm_num
  have h1 : computeJaccardSimilarity exDocC.fingerprints exDocD.fingerprints = 1/4 := by
    unfold computeJaccardSimilarity
    rw [if_neg (by simp only [hc1, hc2]; decide), hinter, hunion]
    norm_num
  have h3 : computeOverlapCoefficient exDocC.fingerprints exDocD.fingerprints = 1 := by
    unfold computeOverlapCoefficient
    rw [if_neg (by simp only [hc1, hc2]; decide), hinter, hc1, hc2]
    norm_num
  have hsqrt : Real.sqrt ((4 : ℝ) * 1) = 2 := by
    rw [mul_one, show (4 : ℝ) = 2 ^ 2 by norm_num, Real.sqrt_sq (by norm_num)]
  have h2 : computeCosineSimilarity exDocC.fingerprints exDocD.fingerprints = 1/2 := by
    unfold computeCosineSimilarity
    rw [if_neg (by simp only [hc1, hc2]; decide), hinter, hc1, hc2]
    push_cast
    rw [hsqrt]
  show ¬ _ ∈ bundleValues (computeAllSimilarities exDocC.fingerprints exDocD.fingerprints)
  simp only [bundleValues, computeAllSimilarities, hdice, h1, h2, h3, hinter,
    hunion, hc1, hc2, List.mem_cons, List.not_mem_nil, or_false]
  push_cast
  norm_num

/-- Claim C10: a nonempty shingle list shorter than the winnowing window
yields the empty fingerprint set; consequently two nonempty documents with
entirely different contents (here `"abcde"` and `"vwxyz"`, fingerprinted
with `k = 5` and window size `4`) both receive empty fingerprint sets and
then compare with Jaccard `1` and a positive plagiarism verdict. -/
theorem winnowing_short_input_empty :
    (∀ (s : List Str) (w : ℕ), s ≠ [] → s.length < w →
        generateWinnowingFingerprints s w = ∅) ∧
    exDocA.kGrams ≠ [] ∧ exDocB.kGrams ≠ [] ∧
    (∀ g ∈ exDocA.kGrams, g ∉ exDocB.kGrams) ∧
    exDocA.fingerprints = ∅ ∧ exDocB.fingerprints = ∅ ∧
    (compareDocuments exDocA exDocB (1/2)).similarity.jaccardSimilarity = 1 ∧
    (compareDocuments exDocA exDocB (1/2)).isPlagiarized = true := by
  have hfA : exDocA.fingerprints = ∅ := by decide
  have hfB : exDocB.fingerprints = ∅ := by decide
  have hj : (compareDocuments exDocA exDocB (1/2)).similarity.jaccardSimilarity = 1 := by
    show computeJaccardSimilarity exDocA.fingerprints exDocB.fingerprints = 1
    rw [hfA, hfB]
    simp [computeJaccardSimilarity]
  refine ⟨?_, by decide, by decide, by decide, hfA, hfB, hj, ?_⟩
  · intro s w hs hw
    unfold generateWinnowingFingerprints
    rw [if_neg hs]
    have h0 : s.length + 1 - w = 0 := by omega
    simp [slidingMins, h0]
  · show decide ((1 : ℚ)/2 ≤
      (computeAllSimilarities exDocA.fingerprints exDocB.fingerprints).jaccardSimilarity) = true
    have hj' :
        (computeAllSimilarities exDocA.fingerprints exDocB.fingerprints).jaccardSimilarity = 1 :=
      hj
    rw [hj']
    norm_num

/-- Witness for C10's universal part at the shingle list `["a"]` and
window size `4`. -/
theorem winnowing_short_input_empty_witness :
    ([[97]] : List Str) ≠ [] ∧ ([[97]] : List Str).length < 4 ∧
    generateWinnowingFingerprints [[97]] 4 = ∅ :=
  ⟨by decide, by decide,
   winnowing_short_input_empty.1 [[97]] 4 (by decide) (by decide)⟩

/-- The minimum of the first full window of a shared run is selected by
winnowing, wherever the run occurs. -/
theorem winnow_run_mem (p run q : List Str) (w : ℕ) (hw : 1 ≤ w)
    (hrun : w ≤ run.length) :
    listMin ((run.take w).map fnvHash) ∈
      generateWinnowingFingerprints (p ++ run ++ q) w := by
  have hrne : run ≠ [] := by
    intro h
    rw [h] at hrun
    simp at hrun
    omega
  have hne : p ++ run ++ q ≠ [] := by
    simp only [ne_eq, List.append_assoc, List.append_eq_nil]
    rintro ⟨-, h, -⟩
    exact hrne h
  unfold generateWinnowingFingerprints
  rw [if_neg hne, List.mem_toFinset]
  unfold slidingMins
  apply List.mem_map.mpr
  refine ⟨p.length, List.mem_range.mpr ?_, ?_⟩
  · simp only [List.length_map, List.length_append]
    omega
  · have hwin : (((p ++ run ++ q).map fnvHash).drop p.length).take w =
        (run.take w).map fnvHash := by
      rw [List.append_assoc, List.map_append,
        List.drop_left' (by rw [List.length_map]),
        List.map_append,
        List.take_eq_left_iff.mpr (Or.inr (by rw [List.length_map]; exact hrun)),
        List.map_take]
    rw [hwin]

/-- Claim C2: for every `windowSize ≥ 1`, two shingle lists sharing a
contiguous run of at least `windowSize` identical shingles have winnowed
fingerprint sets that share at least one value. -/
theorem winnowing_shared_run_guarantee (w : ℕ) (hw : 1 ≤ w)
    (run p1 q1 p2 q2 : List Str) (hrun : w ≤ run.length) :
    ∃ v, v ∈ generateWinnowingFingerprints (p1 ++ run ++ q1) w ∧
         v ∈ generateWinnowingFingerprints (p2 ++ run ++ q2) w :=
  ⟨listMin ((run.take w).map fnvHash),
   winnow_run_mem p1 run q1 w hw hrun,
   winnow_run_mem p2 run q2 w hw hrun⟩

/-- Witness for C2: the lists `["ab", "cd"]` and `["cd", "ef"]` share the
one-element run `["cd"]` with window size `1`. -/
theorem winnowing_shared_run_guarantee_witness :
    1 ≤ 1 ∧ 1 ≤ ([[99, 100]] : List Str).length ∧
    (∃ v, v ∈ generateWinnowingFingerprints ([[97, 98]] ++ [[99, 100]] ++ []) 1 ∧
          v ∈ generateWinnowingFingerprints ([] ++ [[99, 100]] ++ [[101, 102]]) 1) :=
  ⟨le_refl 1, by decide,
   winnowing_shared_run_guarantee 1 (le_refl 1) [[99, 100]] [[97, 98]] []
     [] [[101, 102]] (by decide)⟩

/-- The nested `i < j` loops visit exactly `n choose 2` pairs. -/
theorem allPairs_length_choose {α : Type} (l : List α) :
    (allPairs l).length = l.length.choose 2 := by
  induction l with
  | nil => rfl
  | cons x xs ih =>
    simp only [allPairs, List.length_append, List.length_map, List.length_cons,
      Nat.choose_succ_succ, Nat.choose_one_right, ih]

/-- Claim C4: `compareAll` returns exactly `n * (n - 1) / 2` results — a
permutation of the comparison of every pair `i < j` of the input, in loop
order — each with `isPlagiarized = (threshold ≤ jaccard)` and
`similarityPercentage = jaccard * 100`, and the output is sorted in
descending order of similarity percentage. -/
theorem compareAll_spec (documents : List DocumentFingerprint) (t : ℚ) :
    (compareAll documents t).length =
      documents.length * (documents.length - 1) / 2 ∧
    (compareAll documents t).Perm
      ((allPairs documents).map (fun p => compareDocuments p.1 p.2 t)) ∧
    (∀ r ∈ compareAll documents t,
        r.isPlagiarized = decide (t ≤ r.similarity.jaccardSimilarity) ∧
        r.similarityPercentage = r.similarity.jaccardSimilarity * 100) ∧
    List.Pairwise (fun a b => b.similarityPercentage ≤ a.similarityPercentage)
      (compareAll documents t) := by
  have hperm : (compareAll documents t).Perm
      ((allPairs documents).map (fun p => compareDocuments p.1 p.2 t)) :=
    List.mergeSort_perm _ _
  have htrans : ∀ (a b c : ComparisonResult),
      byPercentageDesc a b → byPercentageDesc b c → byPercentageDesc a c := by
    intro a b c h1 h2
    simp only [byPercentageDesc, decide_eq_true_eq] at *
    exact le_trans h2 h1
  have htotal : ∀ (a b : ComparisonResult),
      byPercentageDesc a b || byPercentageDesc b a := by
    intro a b
    simp only [byPercentageDesc, Bool.or_eq_true, decide_eq_true_eq]
    exact le_total b.similarityPercentage a.similarityPercentage
  refine ⟨?_, hperm, ?_, ?_⟩
  · rw [hperm.length_eq, List.length_map, allPairs_length_choose,
      Nat.choose_two_right]
  · intro r hr
    obtain ⟨p, hp, rfl⟩ := List.mem_map.mp (hperm.mem_iff.mp hr)
    exact ⟨rfl, rfl⟩
  · have h := List.sorted_mergeSort htrans htotal
      ((allPairs documents).map (fun p => compareDocuments p.1 p.2 t))
    exact h.imp (fun hab => by
      simpa [byPercentageDesc, decide_eq_true_eq] using hab)

/-- A word character is never a whitespace character. -/
theorem word_not_space {c : ℕ} (h : isWordChar c = true) : isSpaceChar c = false := by
  simp only [isWordChar, Bool.or_eq_true, Bool.and_eq_true, decide_eq_true_eq,
    beq_iff_eq] at h
  simp only [isSpaceChar, Bool.or_eq_true, Bool.and_eq_true, decide_eq_true_eq,
    beq_iff_eq, Bool.or_eq_false_iff, Bool.and_eq_false_iff, decide_eq_false_iff_not,
    beq_eq_false_iff_ne, ne_eq]
  omega

/-- Lowercasing never produces an uppercase ASCII letter. -/
theorem jsToLower_not_upper (c : ℕ) : ¬(65 ≤ jsToLower c ∧ jsToLower c ≤ 90) := by
  unfold jsToLower
  split <;> omega

/-- Lowercasing fixes everything outside the uppercase ASCII range. -/
theorem jsToLower_fix {c : ℕ} (h : ¬(65 ≤ c ∧ c ≤ 90)) : jsToLower c = c :=
  if_neg h

/-- After lowercasing and punctuation replacement every character is a
word or whitespace character, and none is an uppercase ASCII letter. -/
theorem stage2_chars (t : Str) :
    ∀ c ∈ (t.map jsToLower).map replacePunct,
      (isWordChar c || isSpaceChar c) = true ∧ ¬(65 ≤ c ∧ c ≤ 90) := by
  intro c hc
  rw [List.mem_map] at hc
  obtain ⟨a, ha, rfl⟩ := hc
  rw [List.mem_map] at ha
  obtain ⟨a0, _, rfl⟩ := ha
  unfold replacePunct
  split
  · exact ⟨by assumption, jsToLower_not_upper a0⟩
  · exact ⟨by decide, by omega⟩

/-- Every character emitted by the whitespace-collapsing pass is either a
non-whitespace character of the input or the single space `32`. -/
theorem collapseAux_mem :
    ∀ (b : Bool) (l : Str) (c : ℕ), c ∈ collapseAux b l →
      (c ∈ l ∧ isSpaceChar c = false) ∨ c = 32 := by
  intro b l
  induction l generalizing b with
  | nil => intro c hc; simp [collapseAux] at hc
  | cons d rest ih =>
    intro c hc
    unfold collapseAux at hc
    by_cases hd : isSpaceChar d
    · rw [if_pos hd] at hc
      cases b with
      | true =>
        rcases ih true c hc with ⟨h1, h2⟩ | h
        · exact Or.inl ⟨List.mem_cons_of_mem d h1, h2⟩
        · exact Or.inr h
      | false =>
        rcases List.mem_cons.mp hc with h | h
        · exact Or.inr h
        · rcases ih true c h with ⟨h1, h2⟩ | h'
          · exact Or.inl ⟨List.mem_cons_of_mem d h1, h2⟩
          · exact Or.inr h'
    · rw [if_neg hd] at hc
      rcases List.mem_cons.mp hc with h | h
      · subst h
        exact Or.inl ⟨List.mem_cons_self c rest, by simpa using hd⟩
      · rcases ih false c h with ⟨h1, h2⟩ | h'
        · exact Or.inl ⟨List.mem_cons_of_mem d h1, h2⟩
        · exact Or.inr h'

/-- After a space has just been emitted, the next emitted character is not
a whitespace character. -/
theorem collapseAux_head_true :
    ∀ (l : Str) (c : ℕ), (collapseAux true l).head? = some c →
      isSpaceChar c = false := by
  intro l
  induction l with
  | nil => intro c hc; simp [collapseAux] at hc
  | cons d rest ih =>
    intro c hc
    unfold collapseAux at hc
    by_cases hd : isSpaceChar d
    · rw [if_pos hd] at hc
      exact ih c hc
    · rw [if_neg hd] at hc
      simp only [List.head?_cons, Option.some.injEq] at hc
      subst hc
      simpa using hd

/-- The output of the whitespace-collapsing pass never contains two
adjacent spaces. -/
theorem collapseAux_chain :
    ∀ (b : Bool) (l : Str), List.Chain' noDoubleSpace (collapseAux b l) := by
  intro b l
  induction l generalizing b with
  | nil => simp [collapseAux]
  | cons d rest ih =>
    unfold collapseAux
    by_cases hd : isSpaceChar d
    · rw [if_pos hd]
      cases b with
      | true => exact ih true
      | false =>
        refine List.chain'_cons'.mpr ⟨?_, ih true⟩
        intro y hy
        have hys : isSpaceChar y = false :=
          collapseAux_head_true rest y (Option.mem_def.mp hy)
        intro ⟨_, hy32⟩
        rw [hy32] at hys
        simp [isSpaceChar] at hys
    · rw [if_neg hd]
      refine List.chain'_cons'.mpr ⟨?_, ih false⟩
      intro y _
      intro ⟨hd32, _⟩
      rw [hd32] at hd
      simp [isSpaceChar] at hd

/-- A map whose function fixes every element of a list fixes the list. -/
theorem map_fix {f : ℕ → ℕ} :
    ∀ l : Str, (∀ c ∈ l, f c = c) → l.map f = l := by
  intro l h
  induction l with
  | nil => rfl
  | cons d rest ih =>
    simp only [List.map_cons]
    rw [h d (List.mem_cons_self d rest),
      ih (fun c hc => h c (List.mem_cons_of_mem d hc))]

/-- Lowercasing fixes a string of lowercase word characters and spaces. -/
theorem lower_fix (l : Str)
    (h : ∀ c ∈ l, (isWordChar c = true ∧ ¬(65 ≤ c ∧ c ≤ 90)) ∨ c = 32) :
    l.map jsToLower = l := by
  apply map_fix
  intro c hc
  rcases h c hc with ⟨-, h2⟩ | h3
  · exact jsToLower_fix h2
  · subst h3
    rfl

/-- Punctuation replacement fixes a string of word characters and spaces. -/
theorem punct_fix (l : Str)
    (h : ∀ c ∈ l, (isWordChar c = true ∧ ¬(65 ≤ c ∧ c ≤ 90)) ∨ c = 32) :
    l.map replacePunct = l := by
  apply map_fix
  intro c hc
  unfold replacePunct
  rcases h c hc with ⟨h1, -⟩ | h3
  · rw [if_pos (by simp [h1])]
  · subst h3
    rfl

/-- The whitespace-collapsing pass fixes a string of word characters and
single spaces with no two adjacent spaces (and, when a space was just
emitted, no leading space). -/
theorem collapse_fix :
    ∀ l : Str,
      (∀ c ∈ l, (isWordChar c = true ∧ ¬(65 ≤ c ∧ c ≤ 90)) ∨ c = 32) →
      List.Chain' noDoubleSpace l →
      ∀ b : Bool, (b = true → ∀ c, l.head? = some c → c ≠ 32) →
        collapseAux b l = l := by
  intro l
  induction l with
  | nil => intro _ _ b _; cases b <;> rfl
  | cons d rest ih =>
    intro hchars hchain b hb
    have hrest_chars : ∀ c ∈ rest, (isWordChar c = true ∧ ¬(65 ≤ c ∧ c ≤ 90)) ∨ c = 32 :=
      fun c hc => hchars c (List.mem_cons_of_mem d hc)
    obtain ⟨hhead, hrest_chain⟩ := List.chain'_cons'.mp hchain
    unfold collapseAux
    by_cases hd : isSpaceChar d
    · have hd32 : d = 32 := by
        rcases hchars d (List.mem_cons_self d rest) with ⟨h1, -⟩ | h2
        · rw [word_not_space h1] at hd
          exact absurd hd (by simp)
        · exact h2
      cases b with
      | true =>
        exact absurd hd32 (hb rfl d (by simp))
      | false =>
        rw [if_pos hd, if_neg (by simp), hd32]
        congr 1
        apply ih hrest_chars hrest_chain true
        intro _ c hc
        have := hhead c (Option.mem_def.mpr hc)
        rw [hd32] at this
        intro hc32
        exact this ⟨rfl, hc32⟩
    · rw [if_neg hd]
      congr 1
      apply ih hrest_chars hrest_chain false
      intro h
      exact absurd h (by simp)

/-- The head surviving `dropWhile` fails the predicate. -/
theorem head?_dropWhile_false (p : ℕ → Bool) :
    ∀ (l : Str) (c : ℕ), (l.dropWhile p).head? = some c → p c = false := by
  intro l
  induction l with
  | nil => intro c hc; simp at hc
  | cons d rest ih =>
    intro c hc
    rw [List.dropWhile_cons] at hc
    by_cases hd : p d
    · rw [if_pos hd] at hc
      exact ih c hc
    · rw [if_neg hd] at hc
      simp only [List.head?_cons, Option.some.injEq] at hc
      subst hc
      simpa using hd

/-- The first character of a trimmed string is not whitespace. -/
theorem trim_head (l : Str) :
    ∀ c, (trim l).head? = some c → isSpaceChar c = false := by
  intro c hc
  unfold trim at hc
  set u := l.dropWhile (fun c => isSpaceChar c) with hu
  set s := u.reverse.dropWhile (fun c => isSpaceChar c) with hs
  have hpref : s.reverse <+: u := by
    have h1 : s <:+ u.reverse := List.dropWhile_suffix _
    have h2 : s.reverse <+: u.reverse.reverse := List.reverse_prefix.mpr h1
    rwa [List.reverse_reverse] at h2
  obtain ⟨tl, htl⟩ := hpref
  cases hsr : s.reverse with
  | nil => rw [hsr] at hc; simp at hc
  | cons a cs =>
    rw [hsr] at hc
    simp only [List.head?_cons, Option.some.injEq] at hc
    subst hc
    rw [hsr] at htl
    have hhu : u.head? = some a := by
      rw [← htl]
      rfl
    exact head?_dropWhile_false _ l a hhu

/-- The last character of a trimmed string is not whitespace. -/
theorem trim_last (l : Str) :
    ∀ c, (trim l).getLast? = some c → isSpaceChar c = false := by
  intro c hc
  unfold trim at hc
  rw [List.getLast?_reverse] at hc
  exact head?_dropWhile_false _ _ c hc

/-- Trimming only removes characters. -/
theorem trim_chars (l : Str) : ∀ c ∈ trim l, c ∈ l := by
  intro c hc
  unfold trim at hc
  rw [List.mem_reverse] at hc
  have h1 := (List.dropWhile_sublist (l := (l.dropWhile (fun c => isSpaceChar c)).reverse)
    (fun c => isSpaceChar c)).subset hc
  rw [List.mem_reverse] at h1
  exact (List.dropWhile_sublist (fun c => isSpaceChar c)).subset h1

/-- `noDoubleSpace` is symmetric. -/
theorem noDoubleSpace_symm {a b : ℕ} (h : noDoubleSpace a b) : noDoubleSpace b a :=
  fun ⟨h1, h2⟩ => h ⟨h2, h1⟩

/-- Trimming preserves the no-two-adjacent-spaces invariant. -/
theorem trim_chain (l : Str) (h : List.Chain' noDoubleSpace l) :
    List.Chain' noDoubleSpace (trim l) := by
  unfold trim
  have h1 : List.Chain' noDoubleSpace (l.dropWhile (fun c => isSpaceChar c)) :=
    h.suffix (List.dropWhile_suffix _)
  have h2 : List.Chain' (flip noDoubleSpace) (l.dropWhile (fun c => isSpaceChar c)) :=
    h1.imp (fun _ _ hab => noDoubleSpace_symm hab)
  have h3 : List.Chain' noDoubleSpace (l.dropWhile (fun c => isSpaceChar c)).reverse :=
    List.chain'_reverse.mpr h2
  have h4 : List.Chain' noDoubleSpace
      ((l.dropWhile (fun c => isSpaceChar c)).reverse.dropWhile (fun c => isSpaceChar c)) :=
    h3.suffix (List.dropWhile_suffix _)
  have h5 : List.Chain' (flip noDoubleSpace)
      ((l.dropWhile (fun c => isSpaceChar c)).reverse.dropWhile (fun c => isSpaceChar c)) :=
    h4.imp (fun _ _ hab => noDoubleSpace_symm hab)
  exact List.chain'_reverse.mpr h5

/-- Trimming fixes a string with no leading and no trailing whitespace. -/
theorem trim_fix (l : Str)
    (hh : ∀ c, l.head? = some c → isSpaceChar c = false)
    (hl : ∀ c, l.getLast? = some c → isSpaceChar c = false) :
    trim l = l := by
  unfold trim
  have h1 : l.dropWhile (fun c => isSpaceChar c) = l := by
    cases hcl : l with
    | nil => rfl
    | cons d rest =>
      rw [List.dropWhile_cons,
        if_neg (by rw [hh d (by rw [hcl]; rfl)]; simp)]
  rw [h1]
  have h2 : l.reverse.dropWhile (fun c => isSpaceChar c) = l.reverse := by
    cases hcl : l.reverse with
    | nil => rfl
    | cons d rest =>
      have hd : l.getLast? = some d := by
        rw [← List.head?_reverse, hcl]
        rfl
      rw [List.dropWhile_cons, if_neg (by rw [hl d hd]; simp)]
  rw [h2, List.reverse_reverse]

/-- The output of `normalize` is well-formed: lowercase word characters
and single separating spaces, trimmed at both ends. -/
theorem normalize_wellFormed (t : Str) : wellFormed (TextPreprocessor.normalize t) := by
  refine ⟨?_, ?_, ?_, ?_⟩
  · intro c hc
    have hc1 : c ∈ collapseWS ((t.map jsToLower).map replacePunct) :=
      trim_chars _ c hc
    rcases collapseAux_mem false _ c hc1 with ⟨hmem, hns⟩ | h32
    · obtain ⟨hws, hup⟩ := stage2_chars t c hmem
      rcases Bool.or_eq_true_iff.mp hws with hw | hs
      · exact Or.inl ⟨hw, hup⟩
      · rw [hns] at hs
        exact absurd hs (by simp)
    · exact Or.inr h32
  · exact trim_chain _ (collapseAux_chain false _)
  · intro c hc h32
    have := trim_head _ c hc
    rw [h32] at this
    simp [isSpaceChar] at this
  · intro c hc h32
    have := trim_last _ c hc
    rw [h32] at this
    simp [isSpaceChar] at this

/-- `normalize` fixes every well-formed string. -/
theorem normalize_fix (l : Str) (h : wellFormed l) : TextPreprocessor.normalize l = l := by
  obtain ⟨hchars, hchain, hhead, hlast⟩ := h
  unfold TextPreprocessor.normalize collapseWS
  rw [lower_fix l hchars, punct_fix l hchars,
    collapse_fix l hchars hchain false (fun hb => absurd hb (by simp))]
  apply trim_fix
  · intro c hc
    have hc' : c ∈ l := List.mem_of_mem_head? (Option.mem_def.mpr hc)
    rcases hchars c hc' with ⟨hw, -⟩ | h32
    · exact word_not_space hw
    · exact absurd h32 (hhead c hc)
  · intro c hc
    have hc' : c ∈ l := List.mem_of_mem_getLast? (Option.mem_def.mpr hc)
    rcases hchars c hc' with ⟨hw, -⟩ | h32
    · exact word_not_space hw
    · exact absurd h32 (hlast c hc)

/-- Claim C8: `normalize` is idempotent. -/
theorem normalize_idempotent (t : Str) :
    TextPreprocessor.normalize (TextPreprocessor.normalize t) =
      TextPreprocessor.normalize t :=
  normalize_fix (TextPreprocessor.normalize t) (normalize_wellFormed t)
